import Mathlib

/-!
Verification of the chunked speech-enhancement orchestrator of
`main_denoising.py` (DIHARD18 denoising).

The orchestrator reads WAV files, peak-normalizes them, splits each
waveform into bounded-duration chunks, extracts log-power-spectrum (LPS)
features per chunk, hands mean-variance-normalized features to an external
mask predictor running in a worker process, masks the unnormalized LPS
features with the logarithm of the returned ideal ratio mask (IRM), and
reconstructs and concatenates the chunk waveforms.

Samples and feature values are modelled as rationals.  IEEE-754 special
values that matter to the claims (`-inf` from `log 0`, NaN from the log of
a negative number) are modelled explicitly by the type `FV`.  The
transcendental parts (the value of `log` at positive arguments, the STFT
of `utils.wav2logspec`, the overlap-add synthesis inside
`utils.logspec2wav`) are abstracted as parameters of the environment
`Env`; the orchestrator logic itself is translated line by line from
`main_denoising.py`.  External effects that the claims talk about
(scratch-directory lifetime, artifact writes, the predictor call) are
recorded in an explicit event trace.
-/

set_option maxRecDepth 8000

/-- Sample rate of files in Hz (`SR = 16000` in `main_denoising.py`). -/
def SR : Nat := 16000

/-- Analysis window length in samples (`WL = 512`). -/
def WL : Nat := 512

/-- Half analysis window (`WL2 = WL // 2`). -/
def WL2 : Nat := WL / 2

/-- Number of positive frequencies in the FFT output (`NFREQS = 257`). -/
def NFREQS : Nat := 257

/-- Model of an IEEE-754 double as far as the claims need it: a finite
rational, negative infinity, or NaN. -/
inductive FV where
  | fin (x : ℚ)
  | negInf
  | nan
deriving DecidableEq, Repr

/-- Floating-point addition on the modelled values (no positive infinity is
ever produced by this pipeline, so that case is absent). -/
def FV.add : FV → FV → FV
  | FV.fin a, FV.fin b => FV.fin (a + b)
  | FV.nan, _ => FV.nan
  | _, FV.nan => FV.nan
  | FV.negInf, _ => FV.negInf
  | _, FV.negInf => FV.negInf

/-- Model of `np.log` on a rational input: `log x` is finite for `x > 0`
(its value supplied by the abstract `rlog`), `-inf` at `0`, and NaN for
negative input.  No exception is raised in any case. -/
def npLog (rlog : ℚ → ℚ) (x : ℚ) : FV :=
  if 0 < x then FV.fin (rlog x) else if x = 0 then FV.negInf else FV.nan

/-- One entry of `noisy_htkdata + np.log(irm)` (line 137 of
`main_denoising.py`): the LPS value plus the log of the mask value. -/
def maskEntry (rlog : ℚ → ℚ) (a b : ℚ) : FV :=
  FV.add (FV.fin a) (npLog rlog b)

/-- `masked_lps = noisy_htkdata + np.log(irm)` (line 137), elementwise over
the two matrices. -/
def maskLps (rlog : ℚ → ℚ) (lps irm : List (List ℚ)) : List (List FV) :=
  List.zipWith (fun lr ir => List.zipWith (maskEntry rlog) lr ir) lps irm

/-- `normed_noisy = (noisy_htkdata - mean) / var` (line 113): per-bin
mean-variance normalization, `mean` and `var` broadcast over the frames. -/
def mvn (mean var : List ℚ) (lps : List (List ℚ)) : List (List ℚ) :=
  lps.map (fun row => List.zipWith (fun y v => y / v)
    (List.zipWith (fun x m => x - m) row mean) var)

/-- Exact shape equality of two matrices, as required for the elementwise
sum on line 137 (numpy raises on non-broadcastable shapes; degenerate
broadcastable axes are not modelled). -/
def sameShape (a b : List (List ℚ)) : Bool :=
  a.length == b.length &&
    (List.zipWith (fun r s => r.length == s.length) a b).all id

/-- Truncate or zero-pad a list to exactly `n` entries. -/
def padTrunc (l : List ℚ) (n : Nat) : List ℚ :=
  l.take n ++ List.replicate (n - l.length) 0

/-- Modelled from the spec: `utils.logspec2wav` is not under `src/`.
Spec section 4.2 (synthesis): inverse-transform the masked LPS using the
original chunk as phase source and "truncate/pad the result to the input
chunk's sample length".  The spectral synthesis itself is abstracted by
`synth`; the length contract is modelled by `padTrunc`. -/
def logspec2wav (synth : List (List FV) → List ℚ)
    (masked : List (List FV)) (temp : List ℚ) : List ℚ :=
  padTrunc (synth masked) temp.length

/-- Modelled from the spec: `utils.peak_normalization` is not under
`src/`.  Spec section 4.1: scale every sample by
`target_peak / max abs sample` (target peak 32767); an all-zero waveform
is returned unchanged. -/
def peak_normalization (w : List ℚ) : List ℚ :=
  let peak := (w.map (fun x => |x|)).foldr max 0
  if peak = 0 then w else w.map (fun x => 32767 / peak * x)

/-- The abstract parts of the pipeline: the value of the real logarithm on
positive rationals, the STFT feature extraction (`utils.wav2logspec`, not
under `src/`), the spectral synthesis core of `utils.logspec2wav`, the
external predictor `decode_model` (returns `none` when the worker crashes
or leaves a missing or malformed `irm.mat`), and the global MVN statistics
loaded from `global_mvn_stats.mat`. -/
structure Env where
  rlog : ℚ → ℚ
  wav2logspec : List ℚ → List (List ℚ)
  synth : List (List FV) → List ℚ
  predict : List (List ℚ) → Option (List (List ℚ))
  mean : List ℚ
  var : List ℚ

/-- Scratch directory created by `tempfile.mkdtemp()` for chunk `i`;
freshness is modelled by indexing with the chunk number. -/
def scratchDir (i : Nat) : String :=
  "/tmp/chunk" ++ toString i

/-- Path of the HTK feature record inside chunk `i` scratch directory
(line 102). -/
def noisyNormedLpsFn (i : Nat) : String :=
  scratchDir i ++ "/noisy_normed_lps.htk"

/-- The script-file line written on line 122:
`f.write('irm=%s[0,%d]\x5Cn' % (noisy_normed_lps_fn, cntk_len))`. -/
def scpLine (path : String) (c : Nat) : String :=
  "irm=" ++ path ++ "[0," ++ toString c ++ "]" ++ "\n"

/-- `cntk_len = noisy_htkdata.shape[0] - 1` (line 120). -/
def cntkLen (nFrames : Nat) : Nat :=
  nFrames - 1

/-- Number of frames named by bounds `a`,`b` read as the inclusive-exclusive
range `[a, b)`. -/
def ieFrameCount (a b : Nat) : Nat :=
  b - a

/-- Number of frames named by bounds `a`,`b` read as the range `[a, b]`
inclusive on both ends (the HTK/CNTK script-file convention). -/
def iiFrameCount (a b : Nat) : Nat :=
  b + 1 - a

/-- Observable events of one chunk iteration: scratch-directory creation
and removal, the artifact writes (the feature write and the predictor call
carry the matrix handed over; the scp write carries the line written), and
the read-back of the mask. -/
inductive Ev where
  | mkScratch (i : Nat)
  | writeFeat (i : Nat) (feats : List (List ℚ))
  | writeScp (i : Nat) (line : String)
  | callPredictor (i : Nat) (input : List (List ℚ))
  | readMask (i : Nat)
  | rmScratch (i : Nat)
deriving DecidableEq, Repr

/-- Failure of one chunk iteration: the worker crashed or left a missing
or malformed `irm.mat` (`sio.loadmat` raises on line 136), or the mask
shape does not match the feature shape (the sum on line 137 raises). -/
inductive ChunkErr where
  | maskMissing
  | shapeMismatch
deriving DecidableEq, Repr

/-- One iteration of the chunk loop (lines 86-145 of `main_denoising.py`)
for chunk number `i` with samples `temp`, returning the result of the
iteration together with its event trace.  The `finally:` on line 144
removes the scratch directory on every path — success, the short-chunk
`continue`, and every failure — so every branch of the trace ends with
`Ev.rmScratch i`. -/
def processChunk (env : Env) (i : Nat) (temp : List ℚ) :
    Except ChunkErr (List ℚ) × List Ev :=
  if temp.length < WL2 then
    (Except.ok temp, [Ev.mkScratch i, Ev.rmScratch i])
  else
    let noisy_htkdata := env.wav2logspec temp
    let normed_noisy := mvn env.mean env.var noisy_htkdata
    let cntk_len := cntkLen noisy_htkdata.length
    let pre := [Ev.mkScratch i, Ev.writeFeat i normed_noisy,
      Ev.writeScp i (scpLine (noisyNormedLpsFn i) cntk_len),
      Ev.callPredictor i normed_noisy]
    match env.predict normed_noisy with
    | none => (Except.error ChunkErr.maskMissing, pre ++ [Ev.rmScratch i])
    | some irm =>
      if sameShape noisy_htkdata irm then
        let masked_lps := maskLps env.rlog noisy_htkdata irm
        let wave_recon := logspec2wav env.synth masked_lps temp
        (Except.ok wave_recon, pre ++ [Ev.readMask i, Ev.rmScratch i])
      else
        (Except.error ChunkErr.shapeMismatch,
          pre ++ [Ev.readMask i, Ev.rmScratch i])

/-- The chunk loop over a list of chunks starting at chunk number `i`:
sequential, stopping at the first failing chunk (the exception propagates
out of the loop). -/
def processChunks (env : Env) (i : Nat) :
    List (List ℚ) → Except ChunkErr (List (List ℚ)) × List Ev
  | [] => (Except.ok [], [])
  | c :: cs =>
    match (processChunk env i c).1 with
    | Except.error e => (Except.error e, (processChunk env i c).2)
    | Except.ok out =>
      match (processChunks env (i + 1) cs).1 with
      | Except.error e =>
        (Except.error e, (processChunk env i c).2 ++ (processChunks env (i + 1) cs).2)
      | Except.ok outs =>
        (Except.ok (out :: outs),
          (processChunk env i c).2 ++ (processChunks env (i + 1) cs).2)

/-- `chunk_length = int(truncate_minutes * rate * 60)` (line 82), with
`rate = SR` guaranteed by the earlier check; `int()` truncation equals the
floor for the non-negative values of interest. -/
def chunkLength (tm : ℚ) : ℤ :=
  ⌊tm * ((SR : ℚ)) * 60⌋

/-- `total_chunks = int(math.ceil(wav_data.size / chunk_length))`
(lines 83-84): the ceiling of `n / L`, written over naturals. -/
def totalChunks (n L : Nat) : Nat :=
  (n + L - 1) / L

/-- The chunk slices of lines 90-92: chunk `k` (zero-based) is
`wav_data[k*L : k*L + L]`. -/
def chunkSlices (w : List ℚ) (L : Nat) : List (List ℚ) :=
  (List.range (totalChunks w.length L)).map (fun k => (w.drop (k * L)).take L)

/-- An input WAV file: its base name, the sample rate reported by
`wav_io.read`, and its samples. -/
structure WavFile where
  name : String
  rate : Nat
  data : List ℚ

/-- Failure of one file iteration: division by zero when `chunk_length`
is 0 (line 84), `np.concatenate` on an empty list (line 146), or a
propagated chunk failure. -/
inductive FileErr where
  | zeroDiv
  | emptyConcat
  | chunk (e : ChunkErr)
deriving DecidableEq, Repr

/-- One iteration of the file loop (lines 70-150): rate check (skip the
file on mismatch: `Except.ok none`), peak normalization, chunking, the
chunk loop, and the final concatenation.  Any chunk failure escapes the
iteration as `Except.error`; the event trace of the chunks processed so
far is returned alongside. -/
def processFile (env : Env) (tm : ℚ) (f : WavFile) :
    Except FileErr (Option (List ℚ)) × List Ev :=
  if f.rate ≠ SR then
    (Except.ok none, [])
  else
    let L := (chunkLength tm).toNat
    if L = 0 then
      (Except.error FileErr.zeroDiv, [])
    else
      let wav_data := peak_normalization f.data
      let chunks := chunkSlices wav_data L
      match (processChunks env 1 chunks).1 with
      | Except.error e => (Except.error (FileErr.chunk e), (processChunks env 1 chunks).2)
      | Except.ok outs =>
        if chunks.isEmpty then
          (Except.error FileErr.emptyConcat, (processChunks env 1 chunks).2)
        else
          (Except.ok (some outs.flatten), (processChunks env 1 chunks).2)

/-- The batch loop of `main_denoising` over the input files: returns the
list of output files actually written (name and samples, in order) and the
first uncaught exception, if any.  A skipped file (rate mismatch)
contributes no output and the loop continues; an uncaught exception stops
the whole batch, so later files are not processed. -/
def main_denoising (env : Env) (tm : ℚ) :
    List WavFile → List (String × List ℚ) × Option FileErr
  | [] => ([], none)
  | f :: rest =>
    match (processFile env tm f).1 with
    | Except.error e => ([], some e)
    | Except.ok none => main_denoising env tm rest
    | Except.ok (some out) =>
      ((f.name, out) :: (main_denoising env tm rest).1,
        (main_denoising env tm rest).2)

/-! ### Helper lemmas -/

lemma padTrunc_length (l : List ℚ) (n : Nat) : (padTrunc l n).length = n := by
  simp [padTrunc, List.length_take]
  omega

lemma logspec2wav_length (synth : List (List FV) → List ℚ)
    (masked : List (List FV)) (temp : List ℚ) :
    (logspec2wav synth masked temp).length = temp.length :=
  padTrunc_length _ _

lemma peak_normalization_length (w : List ℚ) :
    (peak_normalization w).length = w.length := by
  simp only [peak_normalization]
  split <;> simp

lemma totalChunks_zero (L : Nat) : totalChunks 0 L = 0 := by
  rcases Nat.eq_zero_or_pos L with h | h
  · subst h; rfl
  · exact Nat.div_eq_of_lt (by omega)

lemma totalChunks_pos_eq (n L : Nat) (hL : 0 < L) (hn : 0 < n) :
    totalChunks n L = (n - 1) / L + 1 := by
  unfold totalChunks
  have h2 : n + L - 1 = (n - 1) + L := by omega
  rw [h2, Nat.add_div_right _ hL]

lemma totalChunks_succ (n L : Nat) (hL : 0 < L) (hn : 0 < n) :
    totalChunks n L = totalChunks (n - L) L + 1 := by
  rcases le_or_lt n L with h | h
  · have h0 : n - L = 0 := by omega
    rw [h0, totalChunks_zero, totalChunks_pos_eq n L hL hn,
      Nat.div_eq_of_lt (by omega)]
  · rw [totalChunks_pos_eq n L hL hn, totalChunks_pos_eq (n - L) L hL (by omega)]
    have h2 : n - 1 = (n - L - 1) + L := by omega
    rw [h2, Nat.add_div_right _ hL]

lemma chunkSlices_nil (L : Nat) : chunkSlices [] L = [] := by
  simp [chunkSlices, totalChunks_zero]

lemma chunkSlices_cons (w : List ℚ) (L : Nat) (hL : 0 < L) (hw : w ≠ []) :
    chunkSlices w L = w.take L :: chunkSlices (w.drop L) L := by
  have hn : 0 < w.length := List.length_pos.mpr hw
  unfold chunkSlices
  rw [List.length_drop, totalChunks_succ w.length L hL hn,
    List.range_succ_eq_map, List.map_cons, List.map_map]
  refine congrArg₂ _ (by simp) ?_
  apply List.map_congr_left
  intro k _
  simp only [Function.comp_apply, List.drop_drop]
  congr 2
  simp only [Nat.succ_eq_add_one]
  ring

lemma chunkSlices_flatten (w : List ℚ) (L : Nat) (hL : 0 < L) :
    (chunkSlices w L).flatten = w := by
  have H : ∀ (n : Nat) (v : List ℚ), v.length ≤ n →
      (chunkSlices v L).flatten = v := by
    intro n
    induction n with
    | zero =>
      intro v hv
      have hv0 : v = [] := by
        cases v with
        | nil => rfl
        | cons a t => simp at hv
      rw [hv0, chunkSlices_nil]
      rfl
    | succ m ih =>
      intro v hv
      cases v with
      | nil => rw [chunkSlices_nil]; rfl
      | cons a t =>
        rw [chunkSlices_cons (a :: t) L hL (by simp), List.flatten_cons,
          ih ((a :: t).drop L) (by simp at hv ⊢; omega)]
        exact List.take_append_drop L (a :: t)
  exact H w.length w le_rfl

lemma chunkSlices_length (w : List ℚ) (L : Nat) :
    (chunkSlices w L).length = totalChunks w.length L := by
  simp [chunkSlices]

lemma totalChunks_ge (n L : Nat) (hL : 0 < L) : n ≤ totalChunks n L * L := by
  rcases Nat.eq_zero_or_pos n with hn | hn
  · simp [hn, totalChunks_zero]
  · rw [totalChunks_pos_eq n L hL hn]
    have hdm := Nat.div_add_mod (n - 1) L
    have hm : (n - 1) % L < L := Nat.mod_lt _ hL
    have h2 : ((n - 1) / L + 1) * L = L * ((n - 1) / L) + L := by ring
    rw [h2]
    set A := L * ((n - 1) / L) with hA
    omega

lemma totalChunks_min (n L t : Nat) (hL : 0 < L) (h : n ≤ t * L) :
    totalChunks n L ≤ t := by
  rcases Nat.eq_zero_or_pos n with hn | hn
  · simp [hn, totalChunks_zero]
  · rw [totalChunks_pos_eq n L hL hn]
    have h2 : (n - 1) / L < t := by
      apply (Nat.div_lt_iff_lt_mul hL).mpr
      omega
    omega

lemma chunkSlices_mem_length (w : List ℚ) (L : Nat) (c : List ℚ)
    (hc : c ∈ chunkSlices w L) : c.length ≤ L := by
  simp only [chunkSlices, List.mem_map, List.mem_range] at hc
  rcases hc with ⟨k, _, hk⟩
  rw [← hk]
  simp [List.length_take]

lemma chunkSlices_getD (w : List ℚ) (L : Nat) (hL : 0 < L) (k : Nat)
    (hk : k + 1 < (chunkSlices w L).length) :
    ((chunkSlices w L).getD k []).length = L := by
  rw [chunkSlices_length] at hk
  have hn : 0 < w.length := by
    by_contra h0
    have : w.length = 0 := by omega
    rw [this, totalChunks_zero] at hk
    omega
  rw [totalChunks_pos_eq w.length L hL hn] at hk
  have hk2 : (k + 1) * L ≤ w.length - 1 := by
    apply (Nat.le_div_iff_mul_le hL).mp
    omega
  have hkL : k * L + L ≤ w.length - 1 := by
    have : (k + 1) * L = k * L + L := by ring
    omega
  have hklt : k < totalChunks w.length L := by
    rw [totalChunks_pos_eq w.length L hL hn]; omega
  unfold chunkSlices
  rw [List.getD_eq_getElem?_getD, List.getElem?_map, List.getElem?_range hklt]
  simp [List.length_take, List.length_drop]
  set A := k * L with hA
  omega

lemma processChunk_short (env : Env) (i : Nat) (temp : List ℚ)
    (h : temp.length < WL2) :
    processChunk env i temp = (Except.ok temp, [Ev.mkScratch i, Ev.rmScratch i]) := by
  simp [processChunk, h]

lemma processChunk_enhanced (env : Env) (i : Nat) (temp : List ℚ)
    (irm : List (List ℚ)) (hlen : ¬ temp.length < WL2)
    (hp : env.predict (mvn env.mean env.var (env.wav2logspec temp)) = some irm)
    (hs : sameShape (env.wav2logspec temp) irm = true) :
    processChunk env i temp =
      (Except.ok (logspec2wav env.synth
          (maskLps env.rlog (env.wav2logspec temp) irm) temp),
        [Ev.mkScratch i, Ev.writeFeat i (mvn env.mean env.var (env.wav2logspec temp)),
          Ev.writeScp i (scpLine (noisyNormedLpsFn i) (cntkLen (env.wav2logspec temp).length)),
          Ev.callPredictor i (mvn env.mean env.var (env.wav2logspec temp)),
          Ev.readMask i, Ev.rmScratch i]) := by
  simp [processChunk, hlen, hp, hs]

lemma processChunk_ok_length (env : Env) (i : Nat) (temp r : List ℚ)
    (h : (processChunk env i temp).1 = Except.ok r) : r.length = temp.length := by
  unfold processChunk at h
  by_cases hlen : temp.length < WL2
  · simp [hlen] at h
    rw [← h]
  · simp only [hlen, if_false] at h
    rcases hp : env.predict (mvn env.mean env.var (env.wav2logspec temp)) with _ | irm
    · rw [hp] at h
      simp at h
    · rw [hp] at h
      by_cases hs : sameShape (env.wav2logspec temp) irm = true
      · simp only [hs, if_true] at h
        simp at h
        rw [← h, logspec2wav_length]
      · simp only [hs] at h
        simp at h

lemma processChunks_ok_length (env : Env) :
    ∀ (cs : List (List ℚ)) (i : Nat) (outs : List (List ℚ)),
      (processChunks env i cs).1 = Except.ok outs →
      outs.flatten.length = cs.flatten.length := by
  intro cs
  induction cs with
  | nil =>
    intro i outs h
    simp [processChunks] at h
    rw [← h]
  | cons c cs ih =>
    intro i outs h
    unfold processChunks at h
    rcases hpc : (processChunk env i c).1 with e | out
    · rw [hpc] at h
      simp at h
    · rw [hpc] at h
      rcases hrec : (processChunks env (i + 1) cs).1 with e | outs0
      · rw [hrec] at h
        simp at h
      · rw [hrec] at h
        simp at h
        rw [← h]
        simp [List.flatten_cons, processChunk_ok_length env i c out hpc,
          ih (i + 1) outs0 hrec]

lemma processFile_ok_length (env : Env) (tm : ℚ) (f : WavFile) (out : List ℚ)
    (h : (processFile env tm f).1 = Except.ok (some out)) :
    out.length = (peak_normalization f.data).length := by
  unfold processFile at h
  by_cases hr : f.rate ≠ SR
  · simp [hr] at h
  · simp only [hr, if_false] at h
    by_cases hL : (chunkLength tm).toNat = 0
    · simp [hL] at h
    · simp only [hL, if_false] at h
      rcases hpc : (processChunks env 1
          (chunkSlices (peak_normalization f.data) ((chunkLength tm).toNat))).1
        with e | outs
      · rw [hpc] at h
        simp at h
      · rw [hpc] at h
        by_cases hemp : (chunkSlices (peak_normalization f.data)
            ((chunkLength tm).toNat)).isEmpty
        · simp [hemp] at h
        · simp only [hemp, if_false] at h
          simp at h
          rw [← h, processChunks_ok_length env _ 1 outs hpc,
            chunkSlices_flatten _ _ (by omega)]

/-! ### Concrete instances used by witnesses and counterexamples -/

/-- A concrete environment whose predictor worker always fails to deliver
`irm.mat`. -/
def cenv : Env :=
  { rlog := fun _ => 0
    wav2logspec := fun _ => [[0]]
    synth := fun _ => []
    predict := fun _ => none
    mean := [0]
    var := [1] }

/-- A concrete environment whose predictor returns the 1-by-1 mask `[[0]]`
for every input. -/
def env1 : Env :=
  { rlog := fun _ => 0
    wav2logspec := fun _ => [[0]]
    synth := fun _ => []
    predict := fun _ => some [[0]]
    mean := [0]
    var := [1] }

/-- A 256-sample all-zero chunk: exactly long enough to be enhanced. -/
def temp256 : List ℚ :=
  List.replicate 256 0

/-- A 16 kHz file long enough that its single chunk needs the predictor. -/
def fileA : WavFile :=
  { name := "a.wav", rate := 16000, data := List.replicate 256 0 }

/-- A second 16 kHz file, short enough to pass through without the
predictor. -/
def fileB : WavFile :=
  { name := "b.wav", rate := 16000, data := [0] }

/-- An 8 kHz file (wrong sample rate). -/
def file8k : WavFile :=
  { name := "r.wav", rate := 8000, data := [1, 2, 3] }

/-- A 16 kHz file with zero samples. -/
def fileEmpty : WavFile :=
  { name := "e.wav", rate := 16000, data := [] }

lemma chunkLength_one : (chunkLength 1).toNat = 960000 := by
  norm_num [chunkLength, SR]
  rfl

lemma foldr_max_replicate_zero (n : Nat) :
    List.foldr max (0:ℚ) (List.replicate n 0) = 0 := by
  induction n with
  | zero => simp
  | succ m ih => simp [List.replicate_succ, ih]

lemma peak_normalization_replicate_zero (n : Nat) :
    peak_normalization (List.replicate n 0) = List.replicate n 0 := by
  simp [peak_normalization, foldr_max_replicate_zero]

lemma chunkSlices_single (w : List ℚ) (L : Nat) (h0 : w ≠ [])
    (hL : w.length ≤ L) : chunkSlices w L = [w] := by
  have hp : 0 < L := lt_of_lt_of_le (List.length_pos.mpr h0) hL
  rw [chunkSlices_cons w L hp h0, List.take_of_length_le hL]
  have hd : w.drop L = [] := by
    simp [List.drop_eq_nil_iff]
    omega
  rw [hd, chunkSlices_nil]

lemma temp256_not_short : ¬ temp256.length < WL2 := by
  simp [temp256, WL2, WL]

lemma temp256_ne_nil : temp256 ≠ [] := by
  simp [temp256]

lemma temp256_len_le : temp256.length ≤ 960000 := by
  simp [temp256]

lemma processChunks_cons_error (env : Env) (i : Nat) (c : List ℚ)
    (cs : List (List ℚ)) (e : ChunkErr)
    (h : (processChunk env i c).1 = Except.error e) :
    (processChunks env i (c :: cs)).1 = Except.error e := by
  unfold processChunks
  rw [h]

lemma processChunks_cons_ok (env : Env) (i : Nat) (c : List ℚ)
    (cs : List (List ℚ)) (out : List ℚ) (outs : List (List ℚ))
    (h1 : (processChunk env i c).1 = Except.ok out)
    (h2 : (processChunks env (i + 1) cs).1 = Except.ok outs) :
    (processChunks env i (c :: cs)).1 = Except.ok (out :: outs) := by
  unfold processChunks
  rw [h1, h2]

lemma processFile_chunk_error (env : Env) (tm : ℚ) (f : WavFile) (e : ChunkErr)
    (hr : f.rate = SR) (hL : (chunkLength tm).toNat ≠ 0)
    (h : (processChunks env 1 (chunkSlices (peak_normalization f.data)
        ((chunkLength tm).toNat))).1 = Except.error e) :
    (processFile env tm f).1 = Except.error (FileErr.chunk e) := by
  unfold processFile
  simp [hr, hL, h]

lemma processFile_chunks_ok (env : Env) (tm : ℚ) (f : WavFile)
    (outs : List (List ℚ))
    (hr : f.rate = SR) (hL : (chunkLength tm).toNat ≠ 0)
    (hne : ¬ (chunkSlices (peak_normalization f.data)
        ((chunkLength tm).toNat)).isEmpty)
    (h : (processChunks env 1 (chunkSlices (peak_normalization f.data)
        ((chunkLength tm).toNat))).1 = Except.ok outs) :
    (processFile env tm f).1 = Except.ok (some outs.flatten) := by
  unfold processFile
  simp [hr, hL, h, hne]

lemma processChunk_cenv (i : Nat) :
    (processChunk cenv i temp256).1 = Except.error ChunkErr.maskMissing := by
  rw [processChunk]
  simp only [temp256_not_short, if_false]
  have hp : cenv.predict (mvn cenv.mean cenv.var (cenv.wav2logspec temp256)) =
      none := rfl
  rw [hp]

lemma processFile_fileA :
    (processFile cenv 1 fileA).1 =
      Except.error (FileErr.chunk ChunkErr.maskMissing) := by
  apply processFile_chunk_error cenv 1 fileA ChunkErr.maskMissing rfl
    (by rw [chunkLength_one]; omega)
  rw [chunkLength_one,
    show peak_normalization fileA.data = temp256 from
      peak_normalization_replicate_zero 256,
    chunkSlices_single temp256 960000 temp256_ne_nil temp256_len_le]
  exact processChunks_cons_error cenv 1 temp256 [] ChunkErr.maskMissing
    (processChunk_cenv 1)

lemma processFile_fileB :
    (processFile cenv 1 fileB).1 = Except.ok (some [0]) := by
  have hchunks : chunkSlices (peak_normalization fileB.data)
      ((chunkLength 1).toNat) = [[0]] := by
    rw [chunkLength_one,
      show peak_normalization fileB.data = List.replicate 1 0 from
        peak_normalization_replicate_zero 1]
    rw [chunkSlices_single] <;> simp
  have h : (processChunks cenv 1 (chunkSlices (peak_normalization fileB.data)
      ((chunkLength 1).toNat))).1 = Except.ok [[0]] := by
    rw [hchunks]
    exact processChunks_cons_ok cenv 1 [0] [] [0] []
      (by rw [processChunk_short cenv 1 [0] (by simp [WL2, WL])]) rfl
  have := processFile_chunks_ok cenv 1 fileB [[0]] rfl
    (by rw [chunkLength_one]; omega) (by rw [hchunks]; simp) h
  simpa using this

lemma main_denoising_cons (env : Env) (tm : ℚ) (f : WavFile)
    (rest : List WavFile) :
    main_denoising env tm (f :: rest) =
      match (processFile env tm f).1 with
      | Except.error e => ([], some e)
      | Except.ok none => main_denoising env tm rest
      | Except.ok (some out) =>
        ((f.name, out) :: (main_denoising env tm rest).1,
          (main_denoising env tm rest).2) := rfl

lemma getLast?_concat2 (l : List Ev) (a b : Ev) :
    (l ++ [a, b]).getLast? = some b := by
  rw [show l ++ [a, b] = (l ++ [a]) ++ [b] by simp, List.getLast?_concat]

lemma tm_one_product : (1 : ℚ) * ((SR : ℚ)) * 60 = ((960000 : Nat) : ℚ) := by
  norm_num [SR]

/-! ### Claims -/

/-- Claim C1: for every chunk that is enhanced, the features handed to the
mask predictor are the mean-variance-normalized features
`(lps - global_mean) / global_var`, while the masking operation is applied
to the unnormalized LPS features: the reconstructed chunk is synthesized
from `noisy_htkdata + log irm` computed from the LPS matrix before MVN was
applied. -/
theorem c1_mvn_features_mask_unnormalized (env : Env) (i : Nat)
    (temp : List ℚ) (irm : List (List ℚ))
    (hlen : ¬ temp.length < WL2)
    (hp : env.predict (mvn env.mean env.var (env.wav2logspec temp)) = some irm)
    (hs : sameShape (env.wav2logspec temp) irm = true) :
    (processChunk env i temp).1 =
      Except.ok (logspec2wav env.synth
        (maskLps env.rlog (env.wav2logspec temp) irm) temp) ∧
    Ev.callPredictor i (mvn env.mean env.var (env.wav2logspec temp)) ∈
      (processChunk env i temp).2 := by
  rw [processChunk_enhanced env i temp irm hlen hp hs]
  exact ⟨rfl, by simp⟩

theorem c1_witness :
    (processChunk env1 7 temp256).1 =
      Except.ok (logspec2wav env1.synth
        (maskLps env1.rlog (env1.wav2logspec temp256) [[0]]) temp256) ∧
    Ev.callPredictor 7 (mvn env1.mean env1.var (env1.wav2logspec temp256)) ∈
      (processChunk env1 7 temp256).2 :=
  c1_mvn_features_mask_unnormalized env1 7 temp256 [[0]]
    temp256_not_short rfl rfl

/-- Claim C2 counterexample: the mask is not clamped before the logarithm.
Masking the LPS matrix `[[1]]` with the IRM matrix `[[0]]`, which contains a
zero entry, puts `-inf` into the masked LPS. -/
theorem c2_counterexample :
    maskLps (fun _ => 0) [[1]] [[0]] = [[FV.negInf]] := by
  decide

/-- Claim C2, amended: the code applies `np.log` to the IRM as read, with
no clamping; a zero mask entry yields `-inf` and a negative entry NaN in
the masked LPS, while no exception is raised and the chunk still produces
output. -/
theorem c2_no_clamp_amended (env : Env) (i : Nat) (temp : List ℚ)
    (irm : List (List ℚ)) (hlen : ¬ temp.length < WL2)
    (hp : env.predict (mvn env.mean env.var (env.wav2logspec temp)) = some irm)
    (hs : sameShape (env.wav2logspec temp) irm = true) :
    (∃ r, (processChunk env i temp).1 = Except.ok r) ∧
    (∀ a : ℚ, maskEntry env.rlog a 0 = FV.negInf) ∧
    (∀ a b : ℚ, b < 0 → maskEntry env.rlog a b = FV.nan) := by
  refine ⟨⟨logspec2wav env.synth (maskLps env.rlog (env.wav2logspec temp) irm)
    temp, ?_⟩, ?_, ?_⟩
  · rw [processChunk_enhanced env i temp irm hlen hp hs]
  · intro a
    simp [maskEntry, npLog, FV.add]
  · intro a b hb
    have h1 : ¬ (0 : ℚ) < b := not_lt.mpr hb.le
    have h2 : ¬ b = 0 := hb.ne
    simp [maskEntry, npLog, FV.add, h1, h2]

theorem c2_witness :
    (∃ r, (processChunk env1 9 temp256).1 = Except.ok r) ∧
    (∀ a : ℚ, maskEntry env1.rlog a 0 = FV.negInf) ∧
    (∀ a b : ℚ, b < 0 → maskEntry env1.rlog a b = FV.nan) :=
  c2_no_clamp_amended env1 9 temp256 [[0]] temp256_not_short rfl rfl

/-- Claim C3 counterexample: in the batch `[fileA, fileB]`, where the
predictor fails on `fileA`, the batch aborts: the exception propagates out
of the file loop and no file is written at all — even though `fileB` on
its own would be processed and written. -/
theorem c3_counterexample :
    main_denoising cenv 1 [fileA, fileB] =
      ([], some (FileErr.chunk ChunkErr.maskMissing)) ∧
    main_denoising cenv 1 [fileB] = ([("b.wav", [0])], none) := by
  constructor
  · rw [main_denoising_cons, processFile_fileA]
  · rw [main_denoising_cons, processFile_fileB]
    simp [fileB, main_denoising]

/-- Claim C3, amended: a predictor failure on one file results in no
output file being written for that file, and the exception propagates and
aborts the batch: the remaining files are not processed. -/
theorem c3_batch_aborts_amended (env : Env) (tm : ℚ) (f : WavFile)
    (rest : List WavFile) (e : ChunkErr)
    (h : (processFile env tm f).1 = Except.error (FileErr.chunk e)) :
    main_denoising env tm (f :: rest) = ([], some (FileErr.chunk e)) := by
  rw [main_denoising_cons, h]

theorem c3_witness :
    main_denoising cenv 1 (fileA :: [fileB]) =
      ([], some (FileErr.chunk ChunkErr.maskMissing)) :=
  c3_batch_aborts_amended cenv 1 fileA [fileB] ChunkErr.maskMissing
    processFile_fileA

/-- Claim C4: the orchestrator computes
`chunk_length = truncate_minutes * rate * 60` samples (whenever that
product is a whole number of samples, as the claim presupposes) and splits
the waveform into exactly `ceil (total_samples / chunk_length)` contiguous
non-overlapping chunks in order — each of length `chunk_length` except
possibly a shorter final chunk — which together cover the whole
waveform.  The two `totalChunks` bounds characterize it as the least chunk
count covering all samples, i.e. the ceiling of the division. -/
theorem c4_chunk_split (tm : ℚ) (L : Nat) (w : List ℚ) (hL : 0 < L)
    (htm : tm * ((SR : ℚ)) * 60 = (L : ℚ)) :
    (chunkLength tm).toNat = L ∧
    (chunkSlices w L).length = totalChunks w.length L ∧
    w.length ≤ totalChunks w.length L * L ∧
    (∀ t, w.length ≤ t * L → totalChunks w.length L ≤ t) ∧
    (chunkSlices w L).flatten = w ∧
    (∀ c ∈ chunkSlices w L, c.length ≤ L) ∧
    (∀ k, k + 1 < (chunkSlices w L).length →
      ((chunkSlices w L).getD k []).length = L) := by
  refine ⟨?_, chunkSlices_length w L, totalChunks_ge w.length L hL,
    fun t ht => totalChunks_min w.length L t hL ht,
    chunkSlices_flatten w L hL, fun c hc => chunkSlices_mem_length w L c hc,
    fun k hk => chunkSlices_getD w L hL k hk⟩
  rw [chunkLength, htm, Int.floor_natCast, Int.toNat_natCast]

theorem c4_witness :
    (chunkLength 1).toNat = 960000 ∧
    (chunkSlices [1, 2, 3] 960000).length = totalChunks ([1, 2, 3] : List ℚ).length 960000 ∧
    ([1, 2, 3] : List ℚ).length ≤ totalChunks ([1, 2, 3] : List ℚ).length 960000 * 960000 ∧
    (∀ t, ([1, 2, 3] : List ℚ).length ≤ t * 960000 →
      totalChunks ([1, 2, 3] : List ℚ).length 960000 ≤ t) ∧
    (chunkSlices [1, 2, 3] 960000).flatten = [1, 2, 3] ∧
    (∀ c ∈ chunkSlices [1, 2, 3] 960000, c.length ≤ 960000) ∧
    (∀ k, k + 1 < (chunkSlices [1, 2, 3] 960000).length →
      ((chunkSlices [1, 2, 3] 960000).getD k []).length = 960000) :=
  c4_chunk_split 1 960000 [1, 2, 3] (by decide) tm_one_product

/-- Claim C5: for every accepted input file whose processing completes,
the concatenated output waveform has the same total length as the
peak-normalized input waveform (which in turn has the input's length). -/
theorem c5_length_preservation (env : Env) (tm : ℚ) (f : WavFile)
    (out : List ℚ) (h : (processFile env tm f).1 = Except.ok (some out)) :
    out.length = (peak_normalization f.data).length ∧
    (peak_normalization f.data).length = f.data.length :=
  ⟨processFile_ok_length env tm f out h, peak_normalization_length f.data⟩

theorem c5_witness :
    ([(0 : ℚ)]).length = (peak_normalization fileB.data).length ∧
    (peak_normalization fileB.data).length = fileB.data.length :=
  c5_length_preservation cenv 1 fileB [0] processFile_fileB

/-- Claim C6: a chunk shorter than half the analysis window (`WL2 = 256`
samples) is passed through unmodified, and its event trace shows no
feature write, no scp write and no predictor invocation — only the scratch
directory being created and removed. -/
theorem c6_short_chunk_passthrough (env : Env) (i : Nat) (temp : List ℚ)
    (h : temp.length < WL2) :
    (processChunk env i temp).1 = Except.ok temp ∧
    (processChunk env i temp).2 = [Ev.mkScratch i, Ev.rmScratch i] := by
  rw [processChunk_short env i temp h]
  exact ⟨rfl, rfl⟩

theorem c6_witness :
    (processChunk cenv 3 [0]).1 = Except.ok [0] ∧
    (processChunk cenv 3 [0]).2 = [Ev.mkScratch 3, Ev.rmScratch 3] :=
  c6_short_chunk_passthrough cenv 3 [0] (by simp [WL2, WL])

/-- Claim C7: a file whose sample rate differs from 16000 Hz is skipped
before any normalization or chunk processing (its event trace is empty),
no output is produced for it, and the batch continues exactly as if the
file were absent. -/
theorem c7_rate_mismatch_skip (env : Env) (tm : ℚ) (f : WavFile)
    (rest : List WavFile) (h : f.rate ≠ SR) :
    (processFile env tm f).1 = Except.ok none ∧
    (processFile env tm f).2 = [] ∧
    main_denoising env tm (f :: rest) = main_denoising env tm rest := by
  have hpf : processFile env tm f = (Except.ok none, []) := by
    unfold processFile
    simp [h]
  refine ⟨by rw [hpf], by rw [hpf], ?_⟩
  rw [main_denoising_cons, hpf]

theorem c7_witness :
    (processFile cenv 1 file8k).1 = Except.ok none ∧
    (processFile cenv 1 file8k).2 = [] ∧
    main_denoising cenv 1 (file8k :: [fileB]) = main_denoising cenv 1 [fileB] :=
  c7_rate_mismatch_skip cenv 1 file8k [fileB] (by decide)

/-- Claim C8: every chunk iteration opens with the creation of its fresh
scratch directory and closes with its removal, on every exit path —
success, the short-chunk skip, and every failure (the `finally:` runs
before any exception propagates). -/
theorem c8_scratch_lifecycle (env : Env) (i : Nat) (temp : List ℚ) :
    (processChunk env i temp).2.head? = some (Ev.mkScratch i) ∧
    (processChunk env i temp).2.getLast? = some (Ev.rmScratch i) := by
  by_cases hlen : temp.length < WL2
  · rw [processChunk_short env i temp hlen]
    exact ⟨rfl, rfl⟩
  · rw [processChunk]
    simp only [hlen, if_false]
    rcases hp : env.predict (mvn env.mean env.var (env.wav2logspec temp))
      with _ | irm
    · exact ⟨rfl, by rw [List.getLast?_concat]⟩
    · dsimp only
      by_cases hs : sameShape (env.wav2logspec temp) irm = true
      · rw [if_pos hs]
        exact ⟨rfl, by rw [getLast?_concat2]⟩
      · rw [if_neg hs]
        exact ⟨rfl, by rw [getLast?_concat2]⟩

/-- Claim C9 counterexample: for a 3-frame chunk the index record line
names the bounds 0 and 2; read as an inclusive-exclusive range, `[0,2)`
covers only 2 of the 3 frames, so the written range is not an
inclusive-exclusive range covering all `frame_count` frames. -/
theorem c9_counterexample :
    scpLine (noisyNormedLpsFn 1) (cntkLen 3) =
      "irm=" ++ noisyNormedLpsFn 1 ++ "[0,2]" ++ "\n" ∧
    ieFrameCount 0 (cntkLen 3) ≠ 3 := by
  constructor
  · decide
  · decide

/-- Claim C9, amended: for every enhanced chunk the index record written
for the predictor is the single text line
`irm=<path>[0,<frame_count - 1>]`, whose frame range is inclusive on both
ends and thereby covers all `frame_count` frames. -/
theorem c9_scp_line_amended (env : Env) (i : Nat) (temp : List ℚ)
    (hlen : ¬ temp.length < WL2)
    (hfr : 0 < (env.wav2logspec temp).length) :
    Ev.writeScp i (scpLine (noisyNormedLpsFn i)
      (cntkLen (env.wav2logspec temp).length)) ∈ (processChunk env i temp).2 ∧
    scpLine (noisyNormedLpsFn i) (cntkLen (env.wav2logspec temp).length) =
      "irm=" ++ noisyNormedLpsFn i ++ "[0," ++
        toString ((env.wav2logspec temp).length - 1) ++ "]" ++ "\n" ∧
    iiFrameCount 0 (cntkLen (env.wav2logspec temp).length) =
      (env.wav2logspec temp).length := by
  refine ⟨?_, rfl, ?_⟩
  · rw [processChunk]
    simp only [hlen, if_false]
    rcases hp : env.predict (mvn env.mean env.var (env.wav2logspec temp))
      with _ | irm
    · simp
    · dsimp only
      by_cases hs : sameShape (env.wav2logspec temp) irm = true
      · rw [if_pos hs]
        simp
      · rw [if_neg hs]
        simp
  · unfold iiFrameCount cntkLen
    omega

theorem c9_witness :
    Ev.writeScp 2 (scpLine (noisyNormedLpsFn 2)
      (cntkLen (env1.wav2logspec temp256).length)) ∈
        (processChunk env1 2 temp256).2 ∧
    scpLine (noisyNormedLpsFn 2) (cntkLen (env1.wav2logspec temp256).length) =
      "irm=" ++ noisyNormedLpsFn 2 ++ "[0," ++
        toString ((env1.wav2logspec temp256).length - 1) ++ "]" ++ "\n" ∧
    iiFrameCount 0 (cntkLen (env1.wav2logspec temp256).length) =
      (env1.wav2logspec temp256).length :=
  c9_scp_line_amended env1 2 temp256 temp256_not_short (by decide)

/-- Claim C10: an accepted file with zero samples yields zero chunks, and
`np.concatenate` of the empty list raises: no output is written for the
file and the failure propagates out of the batch loop instead of
producing an empty output waveform. -/
theorem c10_empty_input_error (env : Env) (tm : ℚ) (f : WavFile)
    (rest : List WavFile) (hr : f.rate = SR) (hd : f.data = [])
    (hL : (chunkLength tm).toNat ≠ 0) :
    (processFile env tm f).1 = Except.error FileErr.emptyConcat ∧
    main_denoising env tm (f :: rest) = ([], some FileErr.emptyConcat) := by
  have hpf : (processFile env tm f).1 = Except.error FileErr.emptyConcat := by
    unfold processFile
    rw [hd]
    have hw : peak_normalization [] = [] := rfl
    simp [hr, hL, hw, chunkSlices_nil, processChunks]
  exact ⟨hpf, by rw [main_denoising_cons, hpf]⟩

theorem c10_witness :
    (processFile cenv 1 fileEmpty).1 = Except.error FileErr.emptyConcat ∧
    main_denoising cenv 1 (fileEmpty :: []) = ([], some FileErr.emptyConcat) :=
  c10_empty_input_error cenv 1 fileEmpty [] rfl rfl
    (by rw [chunkLength_one]; omega)
